import Mathlib

/-!
Verification of the balance-enrichment pipeline of the fireblock_demo
repository.  The TypeScript handlers in `src/src/index.ts` (the revision
with price enrichment, referred to below as the index revision) and in
`src/unnamed/part_000` (the logging revision) are shallowly embedded as
pure Lean functions.  JavaScript numbers are modelled exactly: an
ECMAScript number is either a finite value (an exact rational, standing
for the binary64 value), one of the two infinities, or NaN.  JavaScript
objects are modelled as structures whose pass-through fields are kept in
`extra` association lists; absent object properties are `Option.none`.
-/

namespace Fireblock

/-! Rational arithmetic helpers.  `Rat.add` and friends are irreducible to
the kernel, so the executable operations below are phrased with `mkRat`;
they are proved equal to the Mathlib operations once and for all. -/

/-- Addition of rationals by the textbook cross-multiplication formula. -/
def qAdd (a b : ℚ) : ℚ := mkRat (a.num * b.den + b.num * a.den) (a.den * b.den)

/-- Multiplication of rationals componentwise. -/
def qMul (a b : ℚ) : ℚ := mkRat (a.num * b.num) (a.den * b.den)

/-- Negation of a rational. -/
def qNeg (a : ℚ) : ℚ := mkRat (-a.num) a.den

theorem qAdd_eq (a b : ℚ) : qAdd a b = a + b := by
  rw [qAdd, Rat.mkRat_eq_divInt]
  conv_rhs => rw [← Rat.num_divInt_den a, ← Rat.num_divInt_den b]
  rw [Rat.divInt_add_divInt _ _ (by exact_mod_cast a.den_pos.ne') (by exact_mod_cast b.den_pos.ne')]
  push_cast
  ring_nf

theorem qMul_eq (a b : ℚ) : qMul a b = a * b := by
  rw [qMul, Rat.mkRat_eq_divInt]
  conv_rhs => rw [← Rat.num_divInt_den a, ← Rat.num_divInt_den b]
  rw [Rat.divInt_mul_divInt _ _ (by exact_mod_cast a.den_pos.ne') (by exact_mod_cast b.den_pos.ne')]
  push_cast
  ring_nf

theorem qNeg_eq (a : ℚ) : qNeg a = -a := by
  rw [qNeg, Rat.mkRat_eq_divInt, ← Rat.neg_divInt, Rat.num_divInt_den]

/-- Model of an ECMAScript number: a finite value (exact rational in place
of a binary64, which is adequate for the properties proved here), positive
or negative infinity, or NaN. -/
inductive JSNum where
  | finite (q : ℚ)
  | posInf
  | negInf
  | nan
  deriving DecidableEq, Repr

/-- JavaScript truthiness of a number: `0` and `NaN` are falsy, every other
number (including the infinities) is truthy. -/
def JSNum.truthy : JSNum → Bool
  | .finite q => decide (q ≠ 0)
  | .posInf => true
  | .negInf => true
  | .nan => false

/-- Model of the JavaScript `isNaN` on a number argument. -/
def JSNum.isNaN : JSNum → Bool
  | .nan => true
  | _ => false

/-- IEEE-754 addition on the model (exact in the finite case): NaN is
absorbing, opposite infinities give NaN. -/
def JSNum.add : JSNum → JSNum → JSNum
  | .nan, _ => .nan
  | _, .nan => .nan
  | .posInf, .negInf => .nan
  | .negInf, .posInf => .nan
  | .posInf, _ => .posInf
  | _, .posInf => .posInf
  | .negInf, _ => .negInf
  | _, .negInf => .negInf
  | .finite a, .finite b => .finite (qAdd a b)

/-- IEEE-754 multiplication on the model (exact in the finite case): NaN is
absorbing, zero times an infinity is NaN.  Sign tests are on the numerator
so that the function reduces in the kernel. -/
def JSNum.mul : JSNum → JSNum → JSNum
  | .nan, _ => .nan
  | _, .nan => .nan
  | .finite a, .finite b => .finite (qMul a b)
  | .finite a, .posInf => if 0 < a.num then .posInf else if a.num < 0 then .negInf else .nan
  | .finite a, .negInf => if 0 < a.num then .negInf else if a.num < 0 then .posInf else .nan
  | .posInf, .finite b => if 0 < b.num then .posInf else if b.num < 0 then .negInf else .nan
  | .negInf, .finite b => if 0 < b.num then .negInf else if b.num < 0 then .posInf else .nan
  | .posInf, .posInf => .posInf
  | .posInf, .negInf => .negInf
  | .negInf, .posInf => .negInf
  | .negInf, .negInf => .posInf

/-! ### Model of the ECMAScript `parseFloat` builtin

`parseFloat` skips leading whitespace, then reads the longest prefix that
is a valid `StrDecimalLiteral` (an optional sign followed by `Infinity`,
or digits with an optional fraction and exponent) and returns its value,
or NaN when no such prefix exists.  The value is computed here as an exact
rational instead of being rounded to binary64. -/

/-- Whitespace characters skipped by `parseFloat`. -/
def isWS (c : Char) : Bool := (c == ' ') || (c == '\t') || (c == '\n') || (c == '\r')

/-- Numeric value of a decimal digit character. -/
def digitVal (c : Char) : ℕ := c.toNat - '0'.toNat

/-- Value of a string of decimal digits. -/
def digitsToNat (ds : List Char) : ℕ := ds.foldl (fun n c => 10 * n + digitVal c) 0

/-- Scale a rational by a (signed) power of ten. -/
def applyExp (q : ℚ) (e : ℤ) : ℚ :=
  match e with
  | .ofNat n => mkRat (q.num * ((10 ^ n : ℕ) : ℤ)) q.den
  | .negSucc n => mkRat q.num (q.den * 10 ^ (n + 1))

/-- Digits of the fractional part: everything after a leading dot. -/
def fracDigits (cs : List Char) : List Char :=
  match cs with
  | c :: r => if c = '.' then r.takeWhile Char.isDigit else []
  | [] => []

/-- Rest of the input after the fractional part. -/
def fracRest (cs : List Char) : List Char :=
  match cs with
  | c :: r => if c = '.' then r.dropWhile Char.isDigit else c :: r
  | [] => []

/-- Value of the exponent digits (zero when there are none, which matches
the longest-valid-prefix rule: in `1e` the exponent part is not part of the
literal and the value is that of `1`). -/
def expDigits (cs : List Char) : ℤ := (digitsToNat (cs.takeWhile Char.isDigit) : ℤ)

/-- Signed exponent after the `e` marker. -/
def parseSignedExp (cs : List Char) : ℤ :=
  match cs with
  | c :: r =>
    if c = '+' then expDigits r
    else if c = '-' then - expDigits r
    else expDigits (c :: r)
  | [] => 0

/-- Exponent part: `e` or `E` followed by an optionally signed digit
string; anything else contributes a factor of one. -/
def parseExp (cs : List Char) : ℤ :=
  match cs with
  | c :: r => if c = 'e' ∨ c = 'E' then parseSignedExp r else 0
  | [] => 0

/-- Unsigned decimal literal: digits with optional fraction and exponent.
`none` when neither integer nor fraction digits are present. -/
def parseDecimal (cs : List Char) : Option ℚ :=
  let intDs := cs.takeWhile Char.isDigit
  let r1 := cs.dropWhile Char.isDigit
  let fracDs := fracDigits r1
  let r2 := fracRest r1
  if intDs.isEmpty && fracDs.isEmpty then none
  else
    some (applyExp
      (mkRat ((digitsToNat intDs * 10 ^ fracDs.length + digitsToNat fracDs : ℕ) : ℤ)
        (10 ^ fracDs.length))
      (parseExp r2))

/-- Body of the literal after the optional sign: `Infinity` or a decimal
literal; NaN when neither is present. -/
def parseBody (cs : List Char) (neg : Bool) : JSNum :=
  if cs.take 8 = "Infinity".toList then (if neg then .negInf else .posInf)
  else
    match parseDecimal cs with
    | some q => .finite (if neg then qNeg q else q)
    | none => .nan

/-- Literal after the leading whitespace: at most one sign character. -/
def parseAfterWS (cs : List Char) : JSNum :=
  match cs with
  | [] => parseBody [] false
  | c :: r =>
    if c = '+' then parseBody r false
    else if c = '-' then parseBody r true
    else parseBody (c :: r) false

/-- Model of the ECMAScript `parseFloat` builtin (exact rational result in
place of the rounded binary64). -/
def jsParseFloat (s : String) : JSNum :=
  parseAfterWS (s.toList.dropWhile isWS)

/-! ### Symbol extraction and the JavaScript string helpers -/

/-- Model of JavaScript `s.split(sep)` for a one-character separator: the
list of (possibly empty) segments between occurrences of the separator. -/
def splitUnderscore : List Char → List (List Char)
  | [] => [[]]
  | c :: cs =>
    if c = '_' then [] :: splitUnderscore cs
    else
      match splitUnderscore cs with
      | [] => [[c]]
      | h :: t => (c :: h) :: t

/-- Model of `s.split(sep)[0]`: the first segment (`split` never returns an
empty array, so the index is always defined). -/
def jsSplitFirst (s : String) : String :=
  match splitUnderscore s.toList with
  | [] => ""
  | h :: _ => String.mk h

/-- Model of the JavaScript `x || d` idiom on an optional string: the
default is used when the value is absent or the empty string (both falsy). -/
def jsOrStr (x : Option String) (d : String) : String :=
  match x with
  | some s => if s = "" then d else s
  | none => d

/-- Symbol extraction as written in every handler:
`asset.id?.split(sep)[0] || ''` (equivalently, in the account-list handler
of the index revision, `(asset.id?.split(sep) || [])[0] || ''`). -/
def extractSymbol (id : Option String) : String :=
  match id with
  | none => ""
  | some s => jsOrStr (some (jsSplitFirst s)) ""

/-- Insertion-order deduplication, as performed by spreading a JavaScript
`Set` built from a list: keeps the first occurrence of each element. -/
def jsSetDedupAux : List String → List String → List String
  | _, [] => []
  | seen, x :: xs =>
    if x ∈ seen then jsSetDedupAux seen xs else x :: jsSetDedupAux (x :: seen) xs

/-- Model of spreading a new `Set` built from a list of strings. -/
def jsSetDedup (l : List String) : List String := jsSetDedupAux [] l

/-! ### Data model

The price table returned by the market-data endpoint is a JSON object
keyed by symbol, each row keyed by currency; rows and entries may be
absent.  Pass-through upstream fields are modelled as `extra` association
lists of strings. -/

/-- The two quote currencies the service always requests together. -/
inductive Cur where
  | USD
  | AUD
  deriving DecidableEq, Repr

/-- One row of the price table: the USD and AUD entries of the JSON object
for one symbol (either may be absent). -/
structure PriceRow where
  USD : Option JSNum
  AUD : Option JSNum
  deriving DecidableEq, Repr

/-- Entry of a price row for a given currency. -/
def PriceRow.entry (r : PriceRow) : Cur → Option JSNum
  | .USD => r.USD
  | .AUD => r.AUD

/-- The JSON price object returned by the market-data endpoint, as an
association list from symbol to row (object property lookup is
first-match lookup). -/
abbrev PriceTable := List (String × PriceRow)

/-- The explicit null row attached when no price data is available. -/
def nullRow : PriceRow := { USD := none, AUD := none }

/-- The calculatedValues object attached to an enriched asset. -/
structure CalcVals where
  USD : Option JSNum
  AUD : Option JSNum
  deriving DecidableEq, Repr

/-- Entry of a calculatedValues object for a given currency. -/
def CalcVals.entry (v : CalcVals) : Cur → Option JSNum
  | .USD => v.USD
  | .AUD => v.AUD

/-- A raw vault asset as delivered by the wallet platform: an optional
identifier, an optional available-balance string, and arbitrary
pass-through fields. -/
structure Asset where
  id : Option String
  available : Option String
  extra : List (String × String)
  deriving DecidableEq, Repr

/-- An asset after enrichment: the spread of the raw asset plus the
unitPrice and calculatedValues fields. -/
structure EnrichedAsset where
  id : Option String
  available : Option String
  extra : List (String × String)
  unitPrice : PriceRow
  calculatedValues : CalcVals
  deriving DecidableEq, Repr

/-- Per-account totals object. -/
structure Totals where
  USD : JSNum
  AUD : JSNum
  deriving DecidableEq, Repr

/-- The reduce initialiser. -/
def zeroTotals : Totals := { USD := .finite 0, AUD := .finite 0 }

/-- A vault account: optional assets array (`none` models a missing or
non-array value), whatever assetBalances value the upstream object already
had, and pass-through fields. -/
structure Account where
  accId : Option String
  assets : Option (List Asset)
  assetBalances : Option Totals
  extra : List (String × String)
  deriving DecidableEq, Repr

/-- A vault account after processing by an account-scope handler. -/
structure AccountE where
  accId : Option String
  assets : Option (List EnrichedAsset)
  assetBalances : Option Totals
  extra : List (String × String)
  deriving DecidableEq, Repr

/-! ### The asset valuator and the account aggregator -/

/-- Asset valuation as written in the account-list handler of the index
revision (src/src/index.ts lines 585-598), and identically in its by-id
handler (lines 662-675) and in the part_000 account-list handler (lines
237-250): a symbol is extracted, the row is looked up only for a non-empty
symbol, the balance is parseFloat of `available || "0"`, and each
calculated value is `priceData?.C ? balance * priceData.C : null`. -/
def enrichAsset (prices : PriceTable) (a : Asset) : EnrichedAsset :=
  let symbol := extractSymbol a.id
  let priceData : Option PriceRow := if symbol ≠ "" then List.lookup symbol prices else none
  let balance := jsParseFloat (jsOrStr a.available "0")
  { id := a.id
    available := a.available
    extra := a.extra
    unitPrice := priceData.getD nullRow
    calculatedValues :=
      { USD :=
          match priceData.bind PriceRow.USD with
          | some v => if v.truthy then some (balance.mul v) else none
          | none => none
        AUD :=
          match priceData.bind PriceRow.AUD with
          | some v => if v.truthy then some (balance.mul v) else none
          | none => none } }

/-- One step of the totals reduce of the index revision (lines 601-609):
each currency entry is added only when it passes
`asset.calculatedValues?.C && !isNaN(asset.calculatedValues.C)`. -/
def aggStep (acc : Totals) (a : EnrichedAsset) : Totals :=
  let acc1 :=
    match a.calculatedValues.USD with
    | some v => if v.truthy && !v.isNaN then { acc with USD := acc.USD.add v } else acc
    | none => acc
  match a.calculatedValues.AUD with
  | some v => if v.truthy && !v.isNaN then { acc1 with AUD := acc1.AUD.add v } else acc1
  | none => acc1

/-- The totals reduce of the index revision, initialised with zero for
both currencies. -/
def aggregate (l : List EnrichedAsset) : Totals := l.foldl aggStep zeroTotals

/-- Model of the JavaScript `x || 0` idiom on a number. -/
def jsOrNum (x : JSNum) (d : JSNum) : JSNum := if x.truthy then x else d

/-- Model of the JavaScript `x?.f || 0` idiom on an optional number. -/
def jsOrOptNum (x : Option JSNum) (d : JSNum) : JSNum :=
  match x with
  | some v => if v.truthy then v else d
  | none => d

/-- One step of the totals reduce of the part_000 account-list handler
(lines 252-255): `(acc.C || 0) + (asset.calculatedValues?.C || 0)`. -/
def aggStepP0 (acc : Totals) (a : EnrichedAsset) : Totals :=
  { USD := (jsOrNum acc.USD (.finite 0)).add (jsOrOptNum a.calculatedValues.USD (.finite 0))
    AUD := (jsOrNum acc.AUD (.finite 0)).add (jsOrOptNum a.calculatedValues.AUD (.finite 0)) }

/-- The totals reduce of the part_000 account-list handler. -/
def aggregateP0 (l : List EnrichedAsset) : Totals := l.foldl aggStepP0 zeroTotals

/-! ### The enrichment pipeline, per handler

Handlers are parametrised by the outcome of one price fetch:
`getPrices symbols` is the market-data response (`Except.error` models a
transport or status failure) that a call with that symbol list would get. -/

/-- Symbol collection as written in every list-scope handler:
deduplicate the extracted symbols by spreading a Set, then
`filter(Boolean)` (index revision lines 567-570, part_000 lines 227-229
and 348-350). -/
def symbolsOf (assets : List Asset) : List String :=
  (jsSetDedup (assets.map (fun a => extractSymbol a.id))).filter (fun s => s != "")

/-- The price object available to the valuator in the handlers that guard
the fetch: `let prices = if symbols nonempty then try fetch catch keep empty`
(index revision lines 573-582, 650-659 and 739-748). -/
def pricesFor (getPrices : List String → Except Unit PriceTable) (symbols : List String) :
    PriceTable :=
  if symbols.isEmpty then []
  else
    match getPrices symbols with
    | .ok t => t
    | .error _ => []

/-- Per-account processing of the account-list handler of the index
revision (lines 562-613): an account whose assets field is not an array is
left untouched; otherwise the assets are replaced by their enrichment and
assetBalances is attached. The by-id handler (lines 641-689) performs the
same processing on the response's data object. -/
def processAccount (getPrices : List String → Except Unit PriceTable) (acc : Account) :
    AccountE :=
  match acc.assets with
  | none =>
    { accId := acc.accId, assets := none, assetBalances := acc.assetBalances, extra := acc.extra }
  | some l =>
    let symbols := symbolsOf l
    let prices := pricesFor getPrices symbols
    let enriched := l.map (enrichAsset prices)
    { accId := acc.accId
      assets := some enriched
      assetBalances := some (aggregate enriched)
      extra := acc.extra }

/-- The fetch calls the per-account processing issues: none when the assets
field is missing or the symbol set is empty, otherwise exactly one carrying
the deduplicated non-empty symbols. -/
def accountFetchCalls (acc : Account) : List (List String) :=
  match acc.assets with
  | none => []
  | some l =>
    let symbols := symbolsOf l
    if symbols.isEmpty then [] else [symbols]

/-- The data object of the paged vault-accounts response. -/
structure VAData where
  accounts : Option (List Account)
  extraD : List (String × String)
  deriving DecidableEq, Repr

/-- The paged vault-accounts response. -/
structure VAResp where
  dataF : Option VAData
  extraR : List (String × String)
  deriving DecidableEq, Repr

/-- The data object of the response after processing. -/
structure VADataE where
  accounts : Option (List AccountE)
  extraD : List (String × String)
  deriving DecidableEq, Repr

/-- The response after processing. -/
structure VARespE where
  dataF : Option VADataE
  extraR : List (String × String)
  deriving DecidableEq, Repr

/-- The account-list handler of the index revision
(src/src/index.ts lines 555-629): when the response has a data object
with an accounts array, every account is processed in place; the price
fetch is guarded per account by an inner try, so its failure never
escapes this handler. -/
def handleVaultAccounts (getPrices : List String → Except Unit PriceTable) (resp : VAResp) :
    VARespE :=
  match resp.dataF with
  | none => { dataF := none, extraR := resp.extraR }
  | some d =>
    match d.accounts with
    | none => { dataF := some { accounts := none, extraD := d.extraD }, extraR := resp.extraR }
    | some accs =>
      { dataF := some { accounts := some (accs.map (processAccount getPrices)), extraD := d.extraD }
        extraR := resp.extraR }

/-- The single vault-account response: its data object is the account. -/
structure ByIdResp where
  dataF : Option Account
  extraR : List (String × String)
  deriving DecidableEq, Repr

/-- The single vault-account response after processing. -/
structure ByIdRespE where
  dataF : Option AccountE
  extraR : List (String × String)
  deriving DecidableEq, Repr

/-- The by-id handler of the index revision (lines 632-707): the same
processing applied to the response's data object; its fetch is also
guarded by an inner try (lines 650-659), so the request never fails on a
price-fetch failure. -/
def handleVaultAccountById (getPrices : List String → Except Unit PriceTable)
    (resp : ByIdResp) : ByIdRespE :=
  match resp.dataF with
  | none => { dataF := none, extraR := resp.extraR }
  | some acc => { dataF := some (processAccount getPrices acc), extraR := resp.extraR }

/-- The fetch calls of the by-id handler. -/
def byIdFetchCalls (resp : ByIdResp) : List (List String) :=
  match resp.dataF with
  | none => []
  | some acc => accountFetchCalls acc

/-- An element of the asset-list response of the index revision: it may or
may not carry a nested data object (the handler branches on it when
attaching the enrichment); the balance is always read from the top-level
available field. -/
structure ALAsset where
  id : Option String
  available : Option String
  dataF : Option (List (String × String))
  extra : List (String × String)
  deriving DecidableEq, Repr

/-- The nested data object of an asset-list element after enrichment. -/
structure ALDataE where
  inner : List (String × String)
  unitPrice : PriceRow
  calculatedValues : CalcVals
  deriving DecidableEq, Repr

/-- An asset-list element after enrichment: the pricing fields land inside
the data object when one is present, at top level otherwise. -/
structure ALAssetE where
  id : Option String
  available : Option String
  dataF : Option ALDataE
  extra : List (String × String)
  unitPrice : Option PriceRow
  calculatedValues : Option CalcVals
  deriving DecidableEq, Repr

/-- Symbol collection of the asset-list handler of the index revision
(lines 733-736), identical in form to the account handlers. -/
def symbolsOfAL (assets : List ALAsset) : List String :=
  (jsSetDedup (assets.map (fun a => extractSymbol a.id))).filter (fun s => s != "")

/-- Per-asset enrichment of the asset-list handler of the index revision
(lines 751-780): same valuation formula, with the data-object branching of
lines 756-779. -/
def enrichALAsset (prices : PriceTable) (a : ALAsset) : ALAssetE :=
  let symbol := extractSymbol a.id
  let priceData : Option PriceRow := if symbol ≠ "" then List.lookup symbol prices else none
  let balance := jsParseFloat (jsOrStr a.available "0")
  let cv : CalcVals :=
    { USD :=
        match priceData.bind PriceRow.USD with
        | some v => if v.truthy then some (balance.mul v) else none
        | none => none
      AUD :=
        match priceData.bind PriceRow.AUD with
        | some v => if v.truthy then some (balance.mul v) else none
        | none => none }
  match a.dataF with
  | some d =>
    { id := a.id, available := a.available, extra := a.extra
      dataF := some { inner := d, unitPrice := priceData.getD nullRow, calculatedValues := cv }
      unitPrice := none, calculatedValues := none }
  | none =>
    { id := a.id, available := a.available, extra := a.extra, dataF := none
      unitPrice := some (priceData.getD nullRow), calculatedValues := some cv }

/-- The asset-list handler of the index revision (lines 710-794): a
non-array response is treated as an empty list, an empty list is returned
as-is, and otherwise one guarded fetch (lines 739-748) precedes the
per-asset enrichment.  No account-level totals are attached. -/
def handleVaultAccountAssets (getPrices : List String → Except Unit PriceTable)
    (assetsOpt : Option (List ALAsset)) : List ALAssetE :=
  let assets := assetsOpt.getD []
  if assets.isEmpty then []
  else
    let symbols := symbolsOfAL assets
    let prices := pricesFor getPrices symbols
    assets.map (enrichALAsset prices)

/-- The fetch calls of the asset-list handler. -/
def assetListFetchCalls (assetsOpt : Option (List ALAsset)) : List (List String) :=
  let assets := assetsOpt.getD []
  if assets.isEmpty then []
  else
    let symbols := symbolsOfAL assets
    if symbols.isEmpty then [] else [symbols]

/-- The single-asset response of the index revision: optionally a nested
data object carrying its own available field. -/
structure SAData where
  available : Option String
  extraD : List (String × String)
  deriving DecidableEq, Repr

/-- The single-asset response. -/
structure SAResp where
  dataF : Option SAData
  available : Option String
  extraR : List (String × String)
  deriving DecidableEq, Repr

/-- The nested data object of the single-asset response after enrichment. -/
structure SADataE where
  available : Option String
  extraD : List (String × String)
  unitPrice : PriceRow
  calculatedValues : CalcVals
  deriving DecidableEq, Repr

/-- The single-asset response after enrichment. -/
structure SARespE where
  dataF : Option SADataE
  available : Option String
  extraR : List (String × String)
  unitPrice : Option PriceRow
  calculatedValues : Option CalcVals
  deriving DecidableEq, Repr

/-- JavaScript truthiness of an optional string: absent and empty are
falsy. -/
def strTruthy (x : Option String) : Bool :=
  match x with
  | some s => s != ""
  | none => false

/-- The single-asset handler of the index revision (lines 797-898): the
symbol is `assetId.split(sep)[0]` with no emptiness guard, the fetch for
`[symbol]` is issued unconditionally (lines 818-829, absorbed by an inner
try on failure), the balance comes from data.available when truthy, else
from the top-level available, else zero (lines 831-837), and the
enrichment is attached into the data object when one is present. -/
def handleVaultAsset (getPrices : List String → Except Unit PriceTable) (assetId : String)
    (resp : SAResp) : SARespE :=
  let symbol := jsSplitFirst assetId
  let priceData : Option PriceRow :=
    match getPrices [symbol] with
    | .ok prices => List.lookup symbol prices
    | .error _ => none
  let balance : JSNum :=
    match resp.dataF with
    | some d =>
      if strTruthy d.available then jsParseFloat (d.available.getD "")
      else if strTruthy resp.available then jsParseFloat (resp.available.getD "")
      else .finite 0
    | none =>
      if strTruthy resp.available then jsParseFloat (resp.available.getD "")
      else .finite 0
  let cv : CalcVals :=
    { USD :=
        match priceData.bind PriceRow.USD with
        | some v => if v.truthy then some (balance.mul v) else none
        | none => none
      AUD :=
        match priceData.bind PriceRow.AUD with
        | some v => if v.truthy then some (balance.mul v) else none
        | none => none }
  match resp.dataF with
  | some d =>
    { dataF := some
        { available := d.available, extraD := d.extraD
          unitPrice := priceData.getD nullRow, calculatedValues := cv }
      available := resp.available, extraR := resp.extraR
      unitPrice := none, calculatedValues := none }
  | none =>
    { dataF := none, available := resp.available, extraR := resp.extraR
      unitPrice := some (priceData.getD nullRow), calculatedValues := some cv }

/-- The fetch calls of the single-asset handler of the index revision:
always exactly one, carrying the single (possibly empty) extracted symbol
(line 822; the same is true of the part_000 variant, line 412). -/
def singleAssetFetchCalls (assetId : String) : List (List String) :=
  [[jsSplitFirst assetId]]

/-! ### The part_000 (logging) revision handlers that differ -/

/-- Per-account processing of the part_000 account-list handler (lines
226-256): missing assets become an empty array (`account.assets?.map(f) || []`),
the totals use the `|| 0` reduce, and the price fetch (line 234) is not
wrapped in an inner try, so its failure propagates to the request-level
catch, modelled as `Except.error`. -/
def processAccountP0 (getPrices : List String → Except Unit PriceTable) (acc : Account) :
    Except Unit AccountE :=
  let l := acc.assets.getD []
  let symbols := symbolsOf l
  if symbols.isEmpty then
    let enriched := l.map (enrichAsset [])
    .ok { accId := acc.accId, assets := some enriched
          assetBalances := some (aggregateP0 enriched), extra := acc.extra }
  else
    match getPrices symbols with
    | .error e => .error e
    | .ok prices =>
      let enriched := l.map (enrichAsset prices)
      .ok { accId := acc.accId, assets := some enriched
            assetBalances := some (aggregateP0 enriched), extra := acc.extra }

/-- The account-list handler of the part_000 revision (lines 218-272): the
accounts are processed in order inside one try; an `Except.error` outcome
models the catch at lines 260-269, which turns the price-fetch failure
into a request-level 500 error response. -/
def handleVaultAccountsP0 (getPrices : List String → Except Unit PriceTable) (resp : VAResp) :
    Except Unit VARespE :=
  match resp.dataF with
  | none => .ok { dataF := none, extraR := resp.extraR }
  | some d =>
    match d.accounts with
    | none => .ok { dataF := some { accounts := none, extraD := d.extraD }, extraR := resp.extraR }
    | some accs => do
      let accsE ← accs.mapM (processAccountP0 getPrices)
      return { dataF := some { accounts := some accsE, extraD := d.extraD }, extraR := resp.extraR }

/-- The single-asset response of the part_000 revision (no data-object
branching there). -/
structure PSAResp where
  available : Option String
  extraR : List (String × String)
  deriving DecidableEq, Repr

/-- The part_000 single-asset response after enrichment. -/
structure PSARespE where
  available : Option String
  extraR : List (String × String)
  unitPrice : PriceRow
  calculatedValues : CalcVals
  deriving DecidableEq, Repr

/-- The single-asset handler of the part_000 revision (lines 388-450): the
fetch failure is absorbed by the inner try at lines 410-418, the balance
is parseFloat of `available || "0"` and the enrichment is spread at top
level (lines 420-431). -/
def handleVaultAssetP0 (getPrices : List String → Except Unit PriceTable) (assetId : String)
    (resp : PSAResp) : PSARespE :=
  let symbol := jsSplitFirst assetId
  let priceData : Option PriceRow :=
    match getPrices [symbol] with
    | .ok prices => List.lookup symbol prices
    | .error _ => none
  let balance := jsParseFloat (jsOrStr resp.available "0")
  { available := resp.available
    extraR := resp.extraR
    unitPrice := priceData.getD nullRow
    calculatedValues :=
      { USD :=
          match priceData.bind PriceRow.USD with
          | some v => if v.truthy then some (balance.mul v) else none
          | none => none
        AUD :=
          match priceData.bind PriceRow.AUD with
          | some v => if v.truthy then some (balance.mul v) else none
          | none => none } }

/-! ### Specification-side definitions

These follow the words of the specification, to be compared with the
definitions translated from the source. -/

/-- Specification reading of symbol extraction: the substring of the
identifier before the first underscore (the whole identifier when it
contains none). -/
def specTakeBeforeUnderscore (s : String) : String :=
  String.mk (s.toList.takeWhile (fun c => c != '_'))

/-- The balance used by the valuator. -/
def balanceOf (a : Asset) : JSNum := jsParseFloat (jsOrStr a.available "0")

/-- Specification reading of the price available for an asset and a
currency: the table row of the extracted symbol (none for an empty
symbol, which is never looked up) and its entry for the currency. -/
def priceFor (p : PriceTable) (a : Asset) (c : Cur) : Option JSNum :=
  let s := extractSymbol a.id
  if s = "" then none else (List.lookup s p).bind (fun r => r.entry c)

/-! ### Helper lemmas -/

theorem splitUnderscore_ne_nil (cs : List Char) : splitUnderscore cs ≠ [] := by
  induction cs with
  | nil => simp [splitUnderscore]
  | cons c cs ih =>
    by_cases h : c = '_'
    · simp [splitUnderscore, h]
    · simp only [splitUnderscore, if_neg h]
      cases hs : splitUnderscore cs with
      | nil => exact absurd hs ih
      | cons h t => simp

theorem splitUnderscore_head (cs : List Char) :
    (splitUnderscore cs).headD [] = cs.takeWhile (fun c => c != '_') := by
  induction cs with
  | nil => simp [splitUnderscore]
  | cons c cs ih =>
    by_cases h : c = '_'
    · simp [splitUnderscore, h, List.takeWhile_cons]
    · simp only [splitUnderscore, if_neg h]
      cases hs : splitUnderscore cs with
      | nil => exact absurd hs (splitUnderscore_ne_nil cs)
      | cons hd t =>
        rw [hs] at ih
        simp only [List.headD_cons] at ih
        simp [List.takeWhile_cons, h, ih]

theorem jsOrStr_some_empty_default (x : String) : jsOrStr (some x) "" = x := by
  by_cases h : x = "" <;> simp [jsOrStr, h]

/-! ### Claim C7 -/

/-- C7: for every identifier, symbol extraction returns the substring of
the identifier before the first underscore (the whole identifier when it
contains no underscore), and the empty string when the identifier is
empty or absent; as a Lean function it is pure, deterministic and total
by construction. -/
theorem extract_prefix_before_underscore (id : Option String) :
    extractSymbol id =
      match id with
      | none => ""
      | some s => specTakeBeforeUnderscore s := by
  cases id with
  | none => rfl
  | some s =>
    show jsOrStr (some (jsSplitFirst s)) "" = specTakeBeforeUnderscore s
    rw [jsOrStr_some_empty_default]
    unfold jsSplitFirst specTakeBeforeUnderscore
    cases hs : splitUnderscore s.toList with
    | nil => exact absurd hs (splitUnderscore_ne_nil _)
    | cons h t =>
      have hh := splitUnderscore_head s.toList
      rw [hs] at hh
      simp only [List.headD_cons] at hh
      rw [hh]

/-! ### Claim C1 -/

/-- C1 (amended): for every raw asset, price table and currency, the
calculated value is `balance * price` exactly when the extracted symbol is
non-empty, the table has a row for it, and the row's entry for the
currency is present and truthy (non-zero and non-NaN); in every other
case, including a present price of exactly zero, the calculated value is
null. -/
theorem calculatedValue_truthy_characterization (p : PriceTable) (a : Asset) (c : Cur) :
    ((enrichAsset p a).calculatedValues.entry c = none ↔
      ∀ v, priceFor p a c = some v → v.truthy = false) ∧
    (∀ v, priceFor p a c = some v → v.truthy = true →
      (enrichAsset p a).calculatedValues.entry c = some ((balanceOf a).mul v)) := by
  have hpf : priceFor p a c =
      (if extractSymbol a.id ≠ "" then List.lookup (extractSymbol a.id) p else none).bind
        (fun r => r.entry c) := by
    unfold priceFor
    by_cases h : extractSymbol a.id = "" <;> simp [h]
  have hcv : (enrichAsset p a).calculatedValues.entry c =
      match (if extractSymbol a.id ≠ "" then List.lookup (extractSymbol a.id) p else none).bind
        (fun r => r.entry c) with
      | some v => if v.truthy then some ((balanceOf a).mul v) else none
      | none => none := by
    cases c <;> rfl
  rw [hcv, ← hpf]
  constructor
  · cases hx : priceFor p a c with
    | none => simp
    | some v =>
      by_cases ht : v.truthy = true <;> simp [ht]
  · intro v hv ht
    rw [hv]
    simp [ht]

/-- C1 counterexample: with a table that carries an explicit price of
exactly zero for the asset's symbol, the code produces a null calculated
value, not zero, refuting the claim that a present zero price multiplies
normally. -/
theorem zero_price_yields_null_cex :
    (enrichAsset [("BTC", { USD := some (.finite 0), AUD := some (.finite 0) })]
        { id := some "BTC_TEST", available := some "2", extra := [] }).calculatedValues.USD
      = none
    ∧ List.lookup "BTC"
        ([("BTC", { USD := some (.finite 0), AUD := some (.finite 0) })] : PriceTable)
      = some { USD := some (.finite 0), AUD := some (.finite 0) }
    ∧ (none : Option JSNum) ≠ some (.finite 0) := by
  decide

/-- C1 witness: a present truthy price multiplies the balance, at the
specification's own scenario. -/
theorem calculatedValue_truthy_witness :
    (enrichAsset [("BTC", { USD := some (.finite 50000), AUD := some (.finite 70000) })]
        { id := some "BTC_TEST", available := some "2.5", extra := [] }).calculatedValues.entry
      Cur.USD = some (.finite 125000) := by
  have h := (calculatedValue_truthy_characterization
    [("BTC", { USD := some (.finite 50000), AUD := some (.finite 70000) })]
    { id := some "BTC_TEST", available := some "2.5", extra := [] } Cur.USD).2
    (.finite 50000) (by decide) (by decide)
  rw [h]
  decide

/-! ### Claim C3 -/

/-- Specification-side description of the strings whose parse succeeds:
after the optional sign the input starts with a digit, a dot followed by a
digit, or the word `Infinity`. -/
def numericStart (cs : List Char) : Bool :=
  match cs with
  | [] => false
  | c :: r =>
    if c.isDigit then true
    else if c = '.' then
      (match r with
       | d :: _ => d.isDigit
       | [] => false)
    else decide ((c :: r).take 8 = "Infinity".toList)

/-- Specification-side description of the strings `parseFloat` does not
map to NaN: leading whitespace, at most one sign, then a numeric start. -/
def hasNumericStart (s : String) : Bool :=
  match s.toList.dropWhile isWS with
  | [] => false
  | c :: r =>
    if c = '+' then numericStart r
    else if c = '-' then numericStart r
    else numericStart (c :: r)

theorem parseDecimal_none_iff (cs : List Char) :
    parseDecimal cs = none ↔
      ((cs.takeWhile Char.isDigit).isEmpty
        && (fracDigits (cs.dropWhile Char.isDigit)).isEmpty) = true := by
  unfold parseDecimal
  by_cases h : ((cs.takeWhile Char.isDigit).isEmpty
      && (fracDigits (cs.dropWhile Char.isDigit)).isEmpty) = true
  · simp [h]
  · simp [h]

theorem numericStart_iff_parseDecimal (cs : List Char)
    (hInf : ¬ cs.take 8 = "Infinity".toList) :
    numericStart cs = false ↔ parseDecimal cs = none := by
  rw [parseDecimal_none_iff]
  cases cs with
  | nil => simp [numericStart, fracDigits]
  | cons c r =>
    by_cases hdig : c.isDigit
    · simp [numericStart, hdig, List.takeWhile_cons]
    · by_cases hdot : c = '.'
      · subst hdot
        simp only [numericStart, hdig, if_false, if_pos rfl, List.takeWhile_cons,
          List.dropWhile_cons, Bool.false_eq_true, ite_false, List.isEmpty_nil, Bool.true_and]
        cases r with
        | nil => simp [fracDigits]
        | cons d r' =>
          by_cases hd : d.isDigit <;>
            simp [fracDigits, hd, List.takeWhile_cons]
      · have hns : numericStart (c :: r) = false := by
          simp only [numericStart, if_neg hdig, if_neg hdot, decide_eq_false_iff_not]
          exact hInf
        have htw : List.takeWhile Char.isDigit (c :: r) = [] := by
          simp [List.takeWhile_cons, hdig]
        have hdw : List.dropWhile Char.isDigit (c :: r) = c :: r := by
          simp [List.dropWhile_cons, hdig]
        have hfd : fracDigits (c :: r) = [] := by
          simp [fracDigits, hdot]
        rw [hns, htw, hdw, hfd]
        simp

theorem parseBody_nan_iff (cs : List Char) (neg : Bool) :
    (parseBody cs neg = .nan) ↔ numericStart cs = false := by
  unfold parseBody
  by_cases hInf : cs.take 8 = "Infinity".toList
  · rw [if_pos hInf]
    cases cs with
    | nil => exact absurd hInf (by decide)
    | cons c r =>
      have hInf' : c :: r.take 7 = "Infinity".toList := hInf
      have hc : c = 'I' := by injection hInf'
      subst hc
      have hns : numericStart ('I' :: r) = true := by
        simp [numericStart, hInf]
      rw [hns]
      cases neg <;> simp
  · rw [if_neg hInf]
    cases hd : parseDecimal cs with
    | some q =>
      have := (numericStart_iff_parseDecimal cs hInf)
      simp only [hd] at this
      simp only []
      constructor
      · intro h; exact absurd h (by simp)
      · intro h
        rw [h] at this
        simp at this
    | none =>
      simp only []
      rw [(numericStart_iff_parseDecimal cs hInf)]
      simp [hd]

theorem jsParseFloat_nan_iff (s : String) :
    jsParseFloat s = .nan ↔ hasNumericStart s = false := by
  unfold jsParseFloat parseAfterWS hasNumericStart
  cases hcs : s.toList.dropWhile isWS with
  | nil => simpa using (parseBody_nan_iff [] false).mpr rfl
  | cons c r =>
    by_cases hp : c = '+'
    · simpa [hp] using parseBody_nan_iff r false
    · by_cases hm : c = '-'
      · simpa [hp, hm] using parseBody_nan_iff r true
      · simpa [hp, hm] using parseBody_nan_iff (c :: r) false

/-- C3 (amended): the valuator parses `available || "0"` with `parseFloat`;
the balance is zero when the field is absent or empty, and otherwise is
`parseFloat` of the field, which is NaN (not zero) exactly when the field
does not start with a numeric prefix after optional whitespace and sign.
Valuation itself is a total function producing a fully-shaped asset. -/
theorem balance_parse_characterization :
    (∀ a : Asset, a.available = none → balanceOf a = .finite 0)
    ∧ (∀ a : Asset, a.available = some "" → balanceOf a = .finite 0)
    ∧ (∀ (a : Asset) (s : String), a.available = some s → s ≠ "" →
        balanceOf a = jsParseFloat s)
    ∧ (∀ s : String, jsParseFloat s = .nan ↔ hasNumericStart s = false) := by
  refine ⟨?_, ?_, ?_, jsParseFloat_nan_iff⟩
  · intro a h
    unfold balanceOf
    rw [h]
    decide
  · intro a h
    unfold balanceOf
    rw [h]
    decide
  · intro a s h hne
    unfold balanceOf
    rw [h]
    simp [jsOrStr, hne]

/-- C3 counterexample: an available field that is a non-empty string with
no numeric prefix yields a NaN balance, not zero, and with a present
truthy price the calculated value is NaN rather than zero. -/
theorem unparsable_available_nan_cex :
    balanceOf { id := some "XRP_TEST", available := some "abc", extra := [] } = .nan
    ∧ JSNum.nan ≠ .finite 0
    ∧ (enrichAsset [("XRP", { USD := some (.finite 1), AUD := none })]
        { id := some "XRP_TEST", available := some "abc", extra := [] }).calculatedValues.USD
      = some .nan := by
  decide

/-- C3 witness: the characterization applied at a parsable balance and at
an absent field. -/
theorem balance_parse_witness :
    balanceOf { id := none, available := some "2.5", extra := [] } = .finite (mkRat 5 2)
    ∧ balanceOf { id := none, available := none, extra := [] } = .finite 0 := by
  constructor
  · have h := balance_parse_characterization.2.2.1
      { id := none, available := some "2.5", extra := [] } "2.5" rfl (by decide)
    rw [h]
    decide
  · exact balance_parse_characterization.1 { id := none, available := none, extra := [] } rfl

/-! ### Claim C2 -/

theorem enrichAsset_empty (a : Asset) :
    enrichAsset [] a =
      { id := a.id, available := a.available, extra := a.extra
        unitPrice := nullRow, calculatedValues := { USD := none, AUD := none } } := by
  unfold enrichAsset
  simp [List.lookup]

theorem foldl_aggStep_const (l : List EnrichedAsset)
    (h : ∀ a ∈ l, a.calculatedValues.USD = none ∧ a.calculatedValues.AUD = none) :
    ∀ acc, List.foldl aggStep acc l = acc := by
  induction l with
  | nil => intro acc; rfl
  | cons x xs ih =>
    intro acc
    have hx := h x (by simp)
    have hstep : aggStep acc x = acc := by
      simp [aggStep, hx.1, hx.2]
    rw [List.foldl_cons, hstep]
    exact ih (fun a ha => h a (by simp [ha])) acc

theorem aggregate_nullEnriched (l : List Asset) :
    aggregate (l.map (enrichAsset [])) = zeroTotals := by
  unfold aggregate
  apply foldl_aggStep_const
  intro a ha
  simp only [List.mem_map] at ha
  obtain ⟨b, _, rfl⟩ := ha
  rw [enrichAsset_empty]
  exact ⟨rfl, rfl⟩

/-- C2 (amended): in the index revision every scope absorbs a price-fetch
failure: the whole pipeline behaves exactly as if an empty price table had
been fetched, so every asset receives the null unit-price row and null
calculated values, and processed accounts get zero totals; the part_000
single-asset handler does the same.  (The part_000 account-list handler
does not: see the counterexample.) -/
theorem price_fetch_failure_absorbed :
    (∀ a : Asset, enrichAsset [] a =
      { id := a.id, available := a.available, extra := a.extra
        unitPrice := nullRow, calculatedValues := { USD := none, AUD := none } })
    ∧ (∀ (acc : Account) (l : List Asset), acc.assets = some l →
        processAccount (fun _ => .error ()) acc =
          { accId := acc.accId, assets := some (l.map (enrichAsset []))
            assetBalances := some zeroTotals, extra := acc.extra })
    ∧ (∀ resp, handleVaultAccounts (fun _ => .error ()) resp
        = handleVaultAccounts (fun _ => .ok []) resp)
    ∧ (∀ resp, handleVaultAccountById (fun _ => .error ()) resp
        = handleVaultAccountById (fun _ => .ok []) resp)
    ∧ (∀ x, handleVaultAccountAssets (fun _ => .error ()) x
        = handleVaultAccountAssets (fun _ => .ok []) x)
    ∧ (∀ aid resp, handleVaultAsset (fun _ => .error ()) aid resp
        = handleVaultAsset (fun _ => .ok []) aid resp)
    ∧ (∀ aid resp, handleVaultAssetP0 (fun _ => .error ()) aid resp
        = handleVaultAssetP0 (fun _ => .ok []) aid resp) := by
  refine ⟨enrichAsset_empty, ?_, ?_, ?_, ?_, ?_, ?_⟩
  · intro acc l h
    obtain ⟨i, asts, ab, ex⟩ := acc
    simp only at h
    subst h
    show processAccount (fun _ => .error ()) _ = _
    unfold processAccount
    simp only []
    rw [show pricesFor (fun _ => .error ()) (symbolsOf l) = [] from by
      unfold pricesFor; split <;> rfl]
    rw [aggregate_nullEnriched]
  · intro resp; rfl
  · intro resp; rfl
  · intro x; rfl
  · intro aid resp; rfl
  · intro aid resp; rfl

/-- C2 counterexample: in the part_000 revision the account-list handler
does not guard the price fetch with an inner try, so a fetch failure
aborts the request and is surfaced as the request-level error response
(the catch at part_000 lines 260-269, an HTTP 500 body), refuting the
claim for that scope. -/
theorem p0_fetch_failure_surfaces_error_cex :
    handleVaultAccountsP0 (fun _ => .error ())
      { dataF := some
          { accounts := some
              [{ accId := some "0"
                 assets := some [{ id := some "BTC_TEST", available := some "1", extra := [] }]
                 assetBalances := none, extra := [] }]
            extraD := [] }
        extraR := [] }
      = .error () := by
  rfl

/-- C2 witness: the absorbed failure at a concrete account. -/
theorem price_fetch_failure_absorbed_witness :
    processAccount (fun _ => .error ())
      { accId := some "0"
        assets := some [{ id := some "BTC_TEST", available := some "1", extra := [] }]
        assetBalances := none, extra := [] }
      = { accId := some "0"
          assets := some
            ([{ id := some "BTC_TEST", available := some "1", extra := [] }].map
              (enrichAsset []))
          assetBalances := some zeroTotals, extra := [] } :=
  price_fetch_failure_absorbed.2.1
    { accId := some "0"
      assets := some [{ id := some "BTC_TEST", available := some "1", extra := [] }]
      assetBalances := none, extra := [] }
    [{ id := some "BTC_TEST", available := some "1", extra := [] }] rfl

/-! ### Claim C4 -/

theorem jsSetDedupAux_subset (seen l : List String) :
    ∀ y ∈ jsSetDedupAux seen l, y ∈ l := by
  induction l generalizing seen with
  | nil => intro y h; simp [jsSetDedupAux] at h
  | cons x xs ih =>
    intro y h
    unfold jsSetDedupAux at h
    by_cases hx : x ∈ seen
    · rw [if_pos hx] at h
      exact List.mem_cons_of_mem _ (ih seen y h)
    · rw [if_neg hx] at h
      rcases List.mem_cons.mp h with h1 | h2
      · simp [h1]
      · exact List.mem_cons_of_mem _ (ih _ y h2)

theorem dedup_filter_nil (ids : List String) (h : ∀ s ∈ ids, s = "") :
    (jsSetDedup ids).filter (fun s => s != "") = [] := by
  rw [List.filter_eq_nil_iff]
  intro a ha
  have hmem := jsSetDedupAux_subset [] ids a ha
  simp [h a hmem]

theorem symbolsOf_nil (l : List Asset) (h : ∀ a ∈ l, extractSymbol a.id = "") :
    symbolsOf l = [] := by
  unfold symbolsOf
  apply dedup_filter_nil
  intro s hs
  simp only [List.mem_map] at hs
  obtain ⟨a, ha, rfl⟩ := hs
  exact h a ha

theorem symbolsOfAL_nil (l : List ALAsset) (h : ∀ a ∈ l, extractSymbol a.id = "") :
    symbolsOfAL l = [] := by
  unfold symbolsOfAL
  apply dedup_filter_nil
  intro s hs
  simp only [List.mem_map] at hs
  obtain ⟨a, ha, rfl⟩ := hs
  exact h a ha

/-- C4 (amended): in the account-list, single-account and asset-list
scopes an empty set of non-empty extracted symbols means the price
fetcher is never invoked, whatever it would have answered, and every
asset still receives the null price row; in the single-asset scope,
however, the fetcher is always invoked exactly once with the single
(possibly empty) extracted symbol — see the counterexample. -/
theorem empty_symbols_no_fetch :
    (∀ (acc : Account) (l : List Asset), acc.assets = some l →
      (∀ a ∈ l, extractSymbol a.id = "") →
      accountFetchCalls acc = []
      ∧ ∀ g, processAccount g acc =
          { accId := acc.accId, assets := some (l.map (enrichAsset []))
            assetBalances := some zeroTotals, extra := acc.extra })
    ∧ (∀ (l : List ALAsset), (∀ a ∈ l, extractSymbol a.id = "") →
        assetListFetchCalls (some l) = []
        ∧ ∀ g, handleVaultAccountAssets g (some l) = l.map (enrichALAsset []))
    ∧ (∀ a : Asset, (enrichAsset [] a).unitPrice = nullRow)
    ∧ (∀ a : ALAsset, (enrichALAsset [] a).unitPrice = some nullRow ∨
        ∃ d, (enrichALAsset [] a).dataF = some d ∧ d.unitPrice = nullRow) := by
  refine ⟨?_, ?_, ?_, ?_⟩
  · intro acc l hl h
    obtain ⟨i, asts, ab, ex⟩ := acc
    simp only at hl
    subst hl
    have hs := symbolsOf_nil l h
    constructor
    · unfold accountFetchCalls
      simp [hs]
    · intro g
      unfold processAccount
      simp only []
      rw [hs]
      rw [show pricesFor g [] = [] from rfl]
      rw [aggregate_nullEnriched]
  · intro l h
    have hs := symbolsOfAL_nil l h
    cases l with
    | nil => exact ⟨rfl, fun g => rfl⟩
    | cons x xs =>
      constructor
      · unfold assetListFetchCalls
        simp [hs]
      · intro g
        unfold handleVaultAccountAssets
        simp only [Option.getD_some, List.isEmpty_cons, Bool.false_eq_true, if_false]
        rw [hs]
        rfl
  · intro a
    rw [enrichAsset_empty]
  · intro a
    obtain ⟨i, av, df, ex⟩ := a
    cases df with
    | none =>
      left
      simp [enrichALAsset, List.lookup]
    | some d =>
      right
      exact ⟨{ inner := d, unitPrice := nullRow
               calculatedValues := { USD := none, AUD := none } },
        by simp [enrichALAsset, List.lookup], rfl⟩

/-- C4 counterexample: the single-asset handler of the index revision
issues its fetch unconditionally (line 822), so for an asset id whose
extracted symbol is empty the fetcher is still invoked once, carrying the
empty symbol, refuting the claim for that scope. -/
theorem single_asset_always_fetches_cex :
    singleAssetFetchCalls "_TEST" = [[""]]
    ∧ jsSplitFirst "_TEST" = ""
    ∧ singleAssetFetchCalls "_TEST" ≠ [] := by
  refine ⟨by decide, by decide, by decide⟩

/-- C4 witness: a concrete account whose only asset has an empty
identifier triggers no fetch call. -/
theorem empty_symbols_no_fetch_witness :
    accountFetchCalls
      { accId := some "0"
        assets := some [{ id := some "", available := some "1", extra := [] }]
        assetBalances := none, extra := [] } = [] :=
  (empty_symbols_no_fetch.1
    { accId := some "0"
      assets := some [{ id := some "", available := some "1", extra := [] }]
      assetBalances := none, extra := [] }
    [{ id := some "", available := some "1", extra := [] }] rfl (by decide)).1

/-! ### Claims C5 and C8: aggregation -/

/-- The per-currency step the reduce of the index revision performs: the
two currency fields of the accumulator evolve independently. -/
def stepCur (u : JSNum) (x : Option JSNum) : JSNum :=
  match x with
  | some v => if v.truthy && !v.isNaN then u.add v else u
  | none => u

theorem aggStep_decomp (acc : Totals) (a : EnrichedAsset) :
    aggStep acc a =
      { USD := stepCur acc.USD a.calculatedValues.USD
        AUD := stepCur acc.AUD a.calculatedValues.AUD } := by
  obtain ⟨u, w⟩ := acc
  unfold aggStep stepCur
  cases a.calculatedValues.USD with
  | none =>
    cases a.calculatedValues.AUD with
    | none => rfl
    | some vA => simp only []; split <;> rfl
  | some vU =>
    cases a.calculatedValues.AUD with
    | none => simp only []; split <;> rfl
    | some vA => simp only []; split <;> split <;> rfl

theorem JSNum.add_right_comm (u x y : JSNum) : (u.add x).add y = (u.add y).add x := by
  cases u <;> cases x <;> cases y <;>
    first
    | rfl
    | (simp only [JSNum.add, qAdd_eq]; congr 1; ring)

theorem stepCur_right_comm (u : JSNum) (x y : Option JSNum) :
    stepCur (stepCur u x) y = stepCur (stepCur u y) x := by
  cases x with
  | none => rfl
  | some v =>
    cases y with
    | none => rfl
    | some w =>
      unfold stepCur
      by_cases hv : (v.truthy && !v.isNaN) = true
      · by_cases hw : (w.truthy && !w.isNaN) = true <;>
          simp [hv, hw, JSNum.add_right_comm]
      · by_cases hw : (w.truthy && !w.isNaN) = true <;>
          simp [hv, hw, JSNum.add_right_comm]

theorem aggStep_right_comm (acc : Totals) (a b : EnrichedAsset) :
    aggStep (aggStep acc a) b = aggStep (aggStep acc b) a := by
  simp only [aggStep_decomp]
  congr 1
  · exact stepCur_right_comm _ _ _
  · exact stepCur_right_comm _ _ _

theorem foldl_aggStep_perm {l1 l2 : List EnrichedAsset} (h : l1.Perm l2) :
    ∀ acc, List.foldl aggStep acc l1 = List.foldl aggStep acc l2 := by
  induction h with
  | nil => intro _; rfl
  | cons x _ ih => intro acc; simp only [List.foldl_cons]; exact ih _
  | swap x y l => intro acc; simp only [List.foldl_cons]; rw [aggStep_right_comm]
  | trans _ _ ih1 ih2 => intro acc; exact (ih1 acc).trans (ih2 acc)

/-- C8: aggregation of the index revision is exactly invariant under
permutation of the asset sequence (the model's arithmetic is exact, which
is the claim's reading of invariance up to floating-point reordering). -/
theorem aggregate_perm_invariant (l1 l2 : List EnrichedAsset) (h : l1.Perm l2) :
    aggregate l1 = aggregate l2 :=
  foldl_aggStep_perm h zeroTotals

/-- C8 witness: a two-element swap, evaluated. -/
theorem aggregate_perm_invariant_witness :
    aggregate
      [{ id := some "A", available := some "1", extra := []
         unitPrice := nullRow, calculatedValues := { USD := some (.finite 100), AUD := none } },
       { id := some "B", available := some "2", extra := []
         unitPrice := nullRow, calculatedValues := { USD := some .nan, AUD := some (.finite 3) } }]
    = aggregate
      [{ id := some "B", available := some "2", extra := []
         unitPrice := nullRow, calculatedValues := { USD := some .nan, AUD := some (.finite 3) } },
       { id := some "A", available := some "1", extra := []
         unitPrice := nullRow, calculatedValues := { USD := some (.finite 100), AUD := none } }] :=
  aggregate_perm_invariant _ _
    (List.Perm.swap
      ({ id := some "B", available := some "2", extra := []
         unitPrice := nullRow
         calculatedValues := { USD := some .nan, AUD := some (.finite 3) } } : EnrichedAsset)
      ({ id := some "A", available := some "1", extra := []
         unitPrice := nullRow
         calculatedValues := { USD := some (.finite 100), AUD := none } } : EnrichedAsset)
      [])

/-- Finite part of a calculated-value entry: the rational of a finite
number, nothing for null, NaN or the infinities. -/
def finPart : Option JSNum → Option ℚ
  | some (.finite q) => some q
  | _ => none

/-- A calculated-value entry that is not an infinity (it may be null,
finite or NaN). -/
def noInfEntry (x : Option JSNum) : Prop := x ≠ some .posInf ∧ x ≠ some .negInf

instance (x : Option JSNum) : Decidable (noInfEntry x) := by
  unfold noInfEntry
  infer_instance

theorem stepCur_finite (x : Option JSNum) (q : ℚ) (h : noInfEntry x) :
    stepCur (.finite q) x = .finite (q + (finPart x).getD 0) := by
  cases x with
  | none => simp [stepCur, finPart]
  | some v =>
    cases v with
    | finite r =>
      unfold stepCur finPart
      by_cases hr : r = 0
      · subst hr
        simp [JSNum.truthy, JSNum.isNaN]
      · simp [JSNum.truthy, JSNum.isNaN, hr, JSNum.add, qAdd_eq]
    | posInf => exact absurd rfl h.1
    | negInf => exact absurd rfl h.2
    | nan => simp [stepCur, finPart, JSNum.truthy]

theorem foldl_stepCur_finite (xs : List (Option JSNum)) (h : ∀ x ∈ xs, noInfEntry x) :
    ∀ q : ℚ, xs.foldl stepCur (.finite q) = .finite (q + (xs.filterMap finPart).sum) := by
  induction xs with
  | nil => intro q; simp
  | cons x xs ih =>
    intro q
    rw [List.foldl_cons, stepCur_finite x q (h x (by simp))]
    rw [ih (fun a ha => h a (by simp [ha])) _]
    congr 1
    cases hx : finPart x with
    | none => simp [List.filterMap_cons, hx]
    | some r =>
      simp only [List.filterMap_cons, hx, List.sum_cons, Option.getD_some]
      ring

theorem aggregate_eq_fold (l : List EnrichedAsset) :
    ∀ u w : JSNum, List.foldl aggStep { USD := u, AUD := w } l =
      { USD := (l.map (fun a => a.calculatedValues.USD)).foldl stepCur u
        AUD := (l.map (fun a => a.calculatedValues.AUD)).foldl stepCur w } := by
  induction l with
  | nil => intro u w; rfl
  | cons a as ih =>
    intro u w
    rw [List.foldl_cons, aggStep_decomp]
    simp only [List.map_cons, List.foldl_cons]
    exact ih _ _

/-- C5 (amended): the reduce of the index revision adds an entry exactly
when it is truthy and not NaN, and its guard does not exclude the
infinities; consequently, whenever no entry is an infinity, the totals
are exactly the sums of the finite non-null entries (a present zero entry
is skipped by the falsy check but contributes nothing anyway, and null
and NaN entries are skipped as the claim states). -/
theorem aggregate_finite_sum (l : List EnrichedAsset)
    (h : ∀ a ∈ l, noInfEntry a.calculatedValues.USD ∧ noInfEntry a.calculatedValues.AUD) :
    aggregate l =
      { USD := .finite (((l.map (fun a => a.calculatedValues.USD)).filterMap finPart).sum)
        AUD := .finite (((l.map (fun a => a.calculatedValues.AUD)).filterMap finPart).sum) } := by
  have hU : ∀ x ∈ l.map (fun a => a.calculatedValues.USD), noInfEntry x := by
    intro x hx
    simp only [List.mem_map] at hx
    obtain ⟨a, ha, rfl⟩ := hx
    exact (h a ha).1
  have hA : ∀ x ∈ l.map (fun a => a.calculatedValues.AUD), noInfEntry x := by
    intro x hx
    simp only [List.mem_map] at hx
    obtain ⟨a, ha, rfl⟩ := hx
    exact (h a ha).2
  show List.foldl aggStep { USD := .finite 0, AUD := .finite 0 } l = _
  rw [aggregate_eq_fold]
  rw [foldl_stepCur_finite _ hU 0, foldl_stepCur_finite _ hA 0]
  simp

/-- C5 counterexample: an infinite calculated value (reachable from an
available field of `Infinity` and a unit price of one) passes the
`value && !isNaN(value)` guard, so it is added rather than skipped and
the USD total becomes infinite, refuting the claim that non-finite values
never affect the total. -/
theorem aggregate_infinity_added_cex :
    (enrichAsset [("BTC", { USD := some (.finite 1), AUD := none })]
        { id := some "BTC", available := some "Infinity", extra := [] }).calculatedValues.USD
      = some .posInf
    ∧ aggregate
        [enrichAsset [("BTC", { USD := some (.finite 1), AUD := none })]
          { id := some "BTC", available := some "Infinity", extra := [] }]
      = { USD := .posInf, AUD := .finite 0 }
    ∧ JSNum.posInf ≠ .finite 0 := by
  refine ⟨by decide, by decide, by decide⟩

/-- C5 witness: the specification's own scenario, one asset valued at 100
USD and one with a null value, sums to 100. -/
theorem aggregate_finite_sum_witness :
    aggregate
      [{ id := some "A", available := some "1", extra := []
         unitPrice := nullRow, calculatedValues := { USD := some (.finite 100), AUD := none } },
       { id := some "B", available := some "2", extra := []
         unitPrice := nullRow, calculatedValues := { USD := none, AUD := none } }]
    = { USD := .finite 100, AUD := .finite 0 } := by
  have h := aggregate_finite_sum
    [{ id := some "A", available := some "1", extra := []
       unitPrice := nullRow, calculatedValues := { USD := some (.finite 100), AUD := none } },
     { id := some "B", available := some "2", extra := []
       unitPrice := nullRow, calculatedValues := { USD := none, AUD := none } }]
    (by decide)
  rw [h]
  simp [finPart]

/-! ### Claim C6 -/

theorem jsSetDedupAux_mem (l : List String) (y : String) :
    ∀ seen, (y ∈ jsSetDedupAux seen l ↔ y ∈ l ∧ y ∉ seen) := by
  induction l with
  | nil => intro seen; simp [jsSetDedupAux]
  | cons x xs ih =>
    intro seen
    unfold jsSetDedupAux
    by_cases hx : x ∈ seen
    · rw [if_pos hx, ih]
      constructor
      · rintro ⟨h1, h2⟩
        exact ⟨List.mem_cons_of_mem _ h1, h2⟩
      · rintro ⟨h1, h2⟩
        rcases List.mem_cons.mp h1 with rfl | h1'
        · exact absurd hx h2
        · exact ⟨h1', h2⟩
    · rw [if_neg hx]
      simp only [List.mem_cons, ih]
      constructor
      · rintro (rfl | ⟨h1, h2⟩)
        · exact ⟨Or.inl rfl, hx⟩
        · refine ⟨Or.inr h1, ?_⟩
          intro hy
          exact h2 (Or.inr hy)
      · rintro ⟨h1, h2⟩
        by_cases hyx : y = x
        · exact Or.inl hyx
        · rcases h1 with rfl | h1'
          · exact Or.inl rfl
          · refine Or.inr ⟨h1', ?_⟩
            intro hy
            rcases hy with rfl | hy'
            · exact hyx rfl
            · exact h2 hy'

theorem jsSetDedupAux_nodup (l : List String) : ∀ seen, (jsSetDedupAux seen l).Nodup := by
  induction l with
  | nil => intro seen; simp [jsSetDedupAux]
  | cons x xs ih =>
    intro seen
    unfold jsSetDedupAux
    by_cases hx : x ∈ seen
    · rw [if_pos hx]
      exact ih seen
    · rw [if_neg hx]
      refine List.nodup_cons.mpr ⟨?_, ih _⟩
      intro hmem
      rw [jsSetDedupAux_mem] at hmem
      exact hmem.2 (List.mem_cons_self x seen)

theorem symbolsOf_mem (l : List Asset) (s : String) :
    s ∈ symbolsOf l ↔ (s ≠ "" ∧ ∃ a ∈ l, extractSymbol a.id = s) := by
  unfold symbolsOf jsSetDedup
  rw [List.mem_filter, jsSetDedupAux_mem]
  simp only [List.mem_map, List.not_mem_nil, not_false_iff, and_true, bne_iff_ne, ne_eq]
  constructor
  · rintro ⟨⟨a, ha, rfl⟩, hne⟩
    exact ⟨hne, a, ha, rfl⟩
  · rintro ⟨hne, a, ha, rfl⟩
    exact ⟨⟨a, ha, rfl⟩, hne⟩

theorem symbolsOfAL_mem (l : List ALAsset) (s : String) :
    s ∈ symbolsOfAL l ↔ (s ≠ "" ∧ ∃ a ∈ l, extractSymbol a.id = s) := by
  unfold symbolsOfAL jsSetDedup
  rw [List.mem_filter, jsSetDedupAux_mem]
  simp only [List.mem_map, List.not_mem_nil, not_false_iff, and_true, bne_iff_ne, ne_eq]
  constructor
  · rintro ⟨⟨a, ha, rfl⟩, hne⟩
    exact ⟨hne, a, ha, rfl⟩
  · rintro ⟨hne, a, ha, rfl⟩
    exact ⟨⟨a, ha, rfl⟩, hne⟩

/-- C6: in every multi-asset scope whose deduplicated non-empty symbol
set is non-empty, the price fetcher is invoked exactly once for the whole
scope, carrying that set: a list without duplicates whose members are
exactly the non-empty symbols extracted from the scope's assets (so
repeated symbols appear once and the fetch is never per-asset).  The
first conjunct is the account-list scope, the second the asset-list
scope, and the third shows the by-id scope issues exactly the calls of
its data account, so the account-scope conjunct covers it. -/
theorem fetch_once_with_dedup :
    (∀ (acc : Account) (l : List Asset), acc.assets = some l → symbolsOf l ≠ [] →
      accountFetchCalls acc = [symbolsOf l]
      ∧ (symbolsOf l).Nodup
      ∧ (∀ s, s ∈ symbolsOf l ↔ (s ≠ "" ∧ ∃ a ∈ l, extractSymbol a.id = s)))
    ∧ (∀ l : List ALAsset, symbolsOfAL l ≠ [] →
      assetListFetchCalls (some l) = [symbolsOfAL l]
      ∧ (symbolsOfAL l).Nodup
      ∧ (∀ s, s ∈ symbolsOfAL l ↔ (s ≠ "" ∧ ∃ a ∈ l, extractSymbol a.id = s)))
    ∧ (∀ (resp : ByIdResp) (acc : Account), resp.dataF = some acc →
        byIdFetchCalls resp = accountFetchCalls acc) := by
  refine ⟨?_, ?_, ?_⟩
  · intro acc l h1 h2
    refine ⟨?_, ?_, fun s => symbolsOf_mem l s⟩
    · obtain ⟨i, asts, ab, ex⟩ := acc
      simp only at h1
      subst h1
      unfold accountFetchCalls
      simp [List.isEmpty_iff, h2]
    · unfold symbolsOf
      exact List.Nodup.filter _ (jsSetDedupAux_nodup _ [])
  · intro l h2
    refine ⟨?_, ?_, fun s => symbolsOfAL_mem l s⟩
    · cases l with
      | nil => exact absurd rfl h2
      | cons x xs =>
        unfold assetListFetchCalls
        simp [List.isEmpty_iff, h2]
    · unfold symbolsOfAL
      exact List.Nodup.filter _ (jsSetDedupAux_nodup _ [])
  · intro resp acc h
    obtain ⟨df, ex⟩ := resp
    simp only at h
    subst h
    rfl

/-- C6 witness: the specification's own scenario, identifiers extracting
to BTC, BTC, ETH produce one call carrying the deduplicated pair, in the
account-list scope and in the asset-list scope. -/
theorem fetch_once_with_dedup_witness :
    accountFetchCalls
      { accId := some "0"
        assets := some
          [{ id := some "BTC_TEST", available := some "1", extra := [] },
           { id := some "BTC", available := some "2", extra := [] },
           { id := some "ETH_TEST", available := some "3", extra := [] }]
        assetBalances := none, extra := [] }
      = [["BTC", "ETH"]]
    ∧ assetListFetchCalls
        (some
          [{ id := some "BTC_TEST", available := some "1", dataF := none, extra := [] },
           { id := some "BTC", available := some "2", dataF := none, extra := [] },
           { id := some "ETH_TEST", available := some "3", dataF := none, extra := [] }])
      = [["BTC", "ETH"]] := by
  constructor
  · have h := (fetch_once_with_dedup.1
      { accId := some "0"
        assets := some
          [{ id := some "BTC_TEST", available := some "1", extra := [] },
           { id := some "BTC", available := some "2", extra := [] },
           { id := some "ETH_TEST", available := some "3", extra := [] }]
        assetBalances := none, extra := [] }
      [{ id := some "BTC_TEST", available := some "1", extra := [] },
       { id := some "BTC", available := some "2", extra := [] },
       { id := some "ETH_TEST", available := some "3", extra := [] }]
      rfl (by decide)).1
    rw [h]
    decide
  · have h := (fetch_once_with_dedup.2.1
      [{ id := some "BTC_TEST", available := some "1", dataF := none, extra := [] },
       { id := some "BTC", available := some "2", dataF := none, extra := [] },
       { id := some "ETH_TEST", available := some "3", dataF := none, extra := [] }]
      (by decide)).1
    rw [h]
    decide

/-! ### Claim C9 -/

/-- C9: enrichment changes only the pricing fields.  The valuators return
the raw asset's identifier, available field and every pass-through field
unchanged, the account processing returns the account's identifier and
pass-through fields unchanged, and the single-asset handlers of both
revisions return the response's non-pricing fields unchanged. -/
theorem enrichment_frame_preservation :
    (∀ (p : PriceTable) (a : Asset), (enrichAsset p a).id = a.id
      ∧ (enrichAsset p a).available = a.available
      ∧ (enrichAsset p a).extra = a.extra)
    ∧ (∀ (g : List String → Except Unit PriceTable) (acc : Account),
        (processAccount g acc).accId = acc.accId
        ∧ (processAccount g acc).extra = acc.extra)
    ∧ (∀ (g : List String → Except Unit PriceTable) (aid : String) (resp : SAResp),
        (handleVaultAsset g aid resp).available = resp.available
        ∧ (handleVaultAsset g aid resp).extraR = resp.extraR)
    ∧ (∀ (g : List String → Except Unit PriceTable) (aid : String) (resp : PSAResp),
        (handleVaultAssetP0 g aid resp).available = resp.available
        ∧ (handleVaultAssetP0 g aid resp).extraR = resp.extraR)
    ∧ (∀ (p : PriceTable) (a : ALAsset), (enrichALAsset p a).id = a.id
        ∧ (enrichALAsset p a).available = a.available
        ∧ (enrichALAsset p a).extra = a.extra) := by
  refine ⟨?_, ?_, ?_, ?_, ?_⟩
  · intro p a
    exact ⟨rfl, rfl, rfl⟩
  · intro g acc
    obtain ⟨i, asts, ab, ex⟩ := acc
    cases asts <;> exact ⟨rfl, rfl⟩
  · intro g aid resp
    obtain ⟨df, av, ex⟩ := resp
    cases df <;> exact ⟨rfl, rfl⟩
  · intro g aid resp
    exact ⟨rfl, rfl⟩
  · intro p a
    obtain ⟨i, av, df, ex⟩ := a
    cases df <;> exact ⟨rfl, rfl, rfl⟩

/-! ### Claim C10 -/

/-- C10: in the account-list handler of the index revision, an account
whose assets field is missing or not an array is returned with every
field unchanged: no enrichment happens and no assetBalances totals are
attached (the field keeps whatever value the upstream object had, none in
particular). -/
theorem missing_assets_untouched (g : List String → Except Unit PriceTable) (acc : Account)
    (h : acc.assets = none) :
    processAccount g acc =
      { accId := acc.accId, assets := none, assetBalances := acc.assetBalances
        extra := acc.extra } := by
  obtain ⟨i, asts, ab, ex⟩ := acc
  simp only at h
  subst h
  rfl

/-- C10 witness: a concrete account without an assets array is returned
unmodified, with no default totals attached. -/
theorem missing_assets_untouched_witness :
    processAccount (fun _ => .ok [])
      { accId := some "7", assets := none, assetBalances := none
        extra := [("name", "Main")] }
      = { accId := some "7", assets := none, assetBalances := none
          extra := [("name", "Main")] } :=
  missing_assets_untouched _
    { accId := some "7", assets := none, assetBalances := none
      extra := [("name", "Main")] } rfl

end Fireblock
